import Mathlib

/-!
Verification of the nikovoice utterance-segmentation core.

This file gives a shallow embedding, in Lean 4, of the per-participant
utterance segmenter, energy classifier, barge-in monitor, standby
controller, re-arm policy and rate limiter implemented in the latest
revision of `src/index.js`, and proves (or refutes) the frozen claims
about that code.

Modelling conventions:
* A PCM chunk ("frame") is the list of its decoded 16-bit samples
  (`Chunk := List Int`); the JS code receives a byte `Buffer` and reads
  one sample per two bytes, so the byte length of a chunk is twice its
  sample count (`byteLen`).
* JS numbers used as millisecond timestamps are modelled as `Int`
  (differences can be negative); byte counters as `Nat`; the normalized
  RMS threshold comparisons as exact rational arithmetic (`ℚ`).
  `Math.sqrt` is eliminated: for a nonempty chunk the code compares
  `sqrt (meanSq) >= threshold`, which (sqrt being monotone, both sides
  of the square nonnegative) holds iff `threshold <= 0` or
  `threshold ^ 2 <= meanSq`.  For an empty chunk the code computes
  `0 / 0 = NaN`, `sqrt NaN = NaN`, and every `NaN >= t` comparison is
  false; this is modelled by `computeRmsSq` returning `none`.
* The env-configured tunables (`SILENCE_MS`, `MIN_UTTERANCE_MS`,
  `MAX_UTTERANCE_MS`, `SILENCE_THRESHOLD`, `PRE_ROLL_MS`, `BARGE_IN`,
  `BARGE_IN_THRESHOLD`, `RATE_LIMIT_*`) are gathered in `Config`;
  `defaultConfig` holds the source defaults.
* Participant ids (Discord snowflake strings in the source) are
  abstracted as naturals.
-/

/-- A decoded PCM frame: the list of its 16-bit samples (the JS code holds
a byte `Buffer` and reads one sample per two bytes). -/
abbrev Chunk : Type := List Int

/-- Byte length of a chunk: `chunk.length` in the JS source counts bytes,
two per sample. -/
def byteLen (c : Chunk) : ℕ := 2 * List.length c

/-- Source `bytesToMs`: `Math.round((bytes / (48000*2*2)) * 1000)`, i.e.
round-half-up of `bytes / 192`.  For nonnegative arguments JS
`Math.round x = floor (x + 1/2)`, hence the nat-division form below. -/
def bytesToMs (bytes : ℕ) : ℕ := (2000 * bytes + 192000) / 384000

/-- Sum of squared samples (not yet normalized): `Σ s * s` over the
chunk.  The loop of `computeRms` accumulates
`(int16 / 32768) * (int16 / 32768)`, i.e. `sumSqInt c / 32768 ^ 2`. -/
def sumSqInt (c : Chunk) : ℤ :=
  (c.map (fun s => s * s)).sum

/-- Sum of squared normalized samples: the accumulator `sum` of the
source's `computeRms` loop, `sum += (int16 / 32768) * (int16 / 32768)`,
in exact rational arithmetic. -/
def sumSquares (c : Chunk) : ℚ :=
  (c.map (fun s : ℤ => ((s : ℚ) / 32768) * ((s : ℚ) / 32768))).sum

/-- Source `computeRms`, with `Math.sqrt` factored out: for a nonempty
chunk this is the mean of the squared normalized samples (the square of
the RMS the JS code computes); for an empty chunk the JS code evaluates
`Math.sqrt (0 / 0) = NaN`, modelled as `none`. -/
def computeRmsSq (c : Chunk) : Option ℚ :=
  if List.length c = 0 then none
  else some (sumSquares c / (List.length c : ℚ))

/-- Source `hasVoiceEnergy`: `computeRms chunk >= threshold`.  A `NaN`
RMS (empty chunk) compares false against every threshold.  For a
nonempty chunk with mean square `m = sumSqInt c / (n * 32768 ^ 2)`,
`sqrt m >= t` iff `t <= 0 ∨ t ^ 2 <= m` (square root is monotone and
nonnegative); writing `t = t.num / t.den` and clearing the positive
denominators turns `t ^ 2 <= m` into the integer comparison below.
The lemma `hasVoiceEnergy_eq_rmsSq` proves this definition equal to the
direct `computeRmsSq` transcription; the integer form is used so that
the function evaluates by kernel reduction. -/
def hasVoiceEnergy (c : Chunk) (threshold : ℚ) : Bool :=
  if List.length c = 0 then false
  else
    decide (threshold ≤ 0) ||
    decide (threshold.num * threshold.num * ((List.length c : ℤ) * (32768 * 32768))
      ≤ (threshold.den : ℤ) * (threshold.den : ℤ) * sumSqInt c)

/-- Modelled from the spec: an energy classifier in which "the RMS of the
empty set is treated as zero" (spec section 4.1 edge case), for
comparison with the source behaviour.  All other chunks are classified
exactly as the source does. -/
def hasVoiceEnergyRmsZeroOnEmpty (c : Chunk) (threshold : ℚ) : Bool :=
  if List.length c = 0 then decide (threshold ≤ 0)
  else hasVoiceEnergy c threshold

/-- The env-configured tunables of the source (latest revision defaults
in `defaultConfig`). -/
structure Config where
  silenceMs : ℕ
  minUtteranceMs : ℕ
  maxUtteranceMs : ℕ
  silenceThreshold : ℚ
  preRollMs : ℕ
  bargeInEnabled : Bool
  bargeInThreshold : ℚ
  rateLimitWindowMs : ℕ
  rateLimitSttMax : ℕ
  rateLimitTtsMax : ℕ
deriving DecidableEq

/-- The source's default configuration (latest revision of
`src/index.js`). -/
def defaultConfig : Config :=
  { silenceMs := 800
    minUtteranceMs := 600
    maxUtteranceMs := 15000
    silenceThreshold := 1 / 100
    preRollMs := 300
    bargeInEnabled := true
    bargeInThreshold := 1 / 50
    rateLimitWindowMs := 60000
    rateLimitSttMax := 10
    rateLimitTtsMax := 10 }

/-- Utterance-finalisation reason tags: the source logs
`reason: 'silence_timer'` (spec name: "silence timeout") and
`reason: 'max_utterance'` (spec name: "max duration"). -/
inductive Reason where
  | silenceTimer
  | maxUtterance
deriving DecidableEq

/-- Observable events of the model, mirroring the source's `logEvent`
calls and externally visible actions.  `finalizeUtterance` marks an
invocation of `finalizeRecording` with the accumulated chunk buffer
(the emission of a finalized utterance; its further rate-limit gate is
modelled separately by `isRateLimited`). -/
inductive Event where
  | utteranceStart
  | utteranceTooLong (durationMs : ℕ)
  | recordingEnd (reason : Reason) (durationMs : ℕ)
  | finalizeUtterance (chunks : List Chunk)
  | bargeIn
  | playerStop
  | killTranscoder (handle : ℕ)
  | standbyOn
  | standbyOff
deriving DecidableEq

/-- Whether an event is an utterance emission (a `finalizeRecording`
invocation). -/
def isFinalizeEvent : Event → Bool
  | Event.finalizeUtterance _ => true
  | _ => false

/-- Whether an event is a playback stop (`state.player.stop(true)`). -/
def isPlayerStopEvent : Event → Bool
  | Event.playerStop => true
  | _ => false

/-- Per-participant segmenter state: the `recording` record created by
`startRecording` in the source (stream handles and ids elided). -/
structure Recording where
  startedAt : Option Int
  lastAudioAt : Int
  active : Bool
  chunks : List Chunk
  bytes : ℕ
  preRoll : List Chunk
  preRollBytes : ℕ
  bargeHits : ℕ
  bargeLastAt : Int
deriving DecidableEq

/-- The freshly created recording of `startRecording`. -/
def initRecording : Recording :=
  { startedAt := none
    lastAudioAt := 0
    active := false
    chunks := []
    bytes := 0
    preRoll := []
    preRollBytes := 0
    bargeHits := 0
    bargeLastAt := 0 }

/-- The reset the silence-detector tick performs after finalizing or
discarding an utterance: `active = false`, `startedAt = null`,
`lastAudioAt = 0`, `chunks = []`, `bytes = 0` (pre-roll and barge
fields are untouched). -/
def resetIdle (r : Recording) : Recording :=
  { r with
    active := false
    startedAt := none
    lastAudioAt := 0
    chunks := []
    bytes := 0 }

/-- Source pre-roll cap:
`Math.floor ((PRE_ROLL_MS / 1000) * 48000 * 2 * 2)`. -/
def maxPreRollBytes (cfg : Config) : ℕ := cfg.preRollMs * 192000 / 1000

/-- Source pre-roll trim loop:
`while (preRollBytes > maxPreRollBytes && preRoll.length > 1) shift`.
Returns the retained frames and the remaining byte counter. -/
def trimPreRoll (maxBytes : ℕ) : List Chunk → ℕ → List Chunk × ℕ
  | [], b => ([], b)
  | c :: rest, b =>
      if maxBytes < b ∧ rest ≠ [] then trimPreRoll maxBytes rest (b - byteLen c)
      else (c :: rest, b)

/-- Tail of the `pcmStream.on('data')` handler once the segmenter is (or
has just become) Active: refresh `lastAudioAt` on energetic frames,
append the chunk to `chunks`, and log `utterance_too_long` when the
buffered duration reaches the maximum (finalisation itself is left to
the timer). -/
def bufferChunk (cfg : Config) (now : Int) (c : Chunk) (energetic : Bool)
    (r : Recording) (evs : List Event) : Recording × List Event :=
  let r1 := if energetic then { r with lastAudioAt := now } else r
  let r2 := { r1 with chunks := r1.chunks ++ [c], bytes := r1.bytes + byteLen c }
  let d := bytesToMs r2.bytes
  (r2, evs ++ (if cfg.maxUtteranceMs ≤ d then [Event.utteranceTooLong d] else []))

/-- Pre-roll maintenance while Idle: push the incoming chunk, add its
byte length, and run the trim loop (source lines 960 to 966). -/
def pushPreRoll (cfg : Config) (r : Recording) (c : Chunk) :
    List Chunk × ℕ :=
  trimPreRoll (maxPreRollBytes cfg) (r.preRoll ++ [c])
    (r.preRollBytes + byteLen c)

/-- The non-playback part of the `pcmStream.on('data')` handler: maintain
the pre-roll while Idle, transition to Active on an energetic frame
(seeding `chunks` from the retained pre-roll), then keep buffering. -/
def segmentStep (cfg : Config) (now : Int) (c : Chunk) (r : Recording) :
    Recording × List Event :=
  let energetic := hasVoiceEnergy c cfg.silenceThreshold
  if r.active = false then
    let pr := pushPreRoll cfg r c
    if energetic = false then
      ({ r with preRoll := pr.1, preRollBytes := pr.2 }, [])
    else
      bufferChunk cfg now c energetic
        { r with
          active := true
          startedAt := some now
          lastAudioAt := now
          chunks := pr.1
          bytes := pr.2
          preRoll := []
          preRollBytes := 0 }
        [Event.utteranceStart]
  else
    bufferChunk cfg now c energetic r []

/-- Result of one `pcmStream.on('data')` invocation: the new recording,
whether playback is still active, the surviving transcoder handle
(`state.currentPlayback`), and the emitted events. -/
structure HandleResult where
  record : Recording
  playing : Bool
  currentPlayback : Option ℕ
  events : List Event
deriving DecidableEq

/-- The full `pcmStream.on('data')` handler.  `playing` is whether
`state.player.state.status` is `Playing` or `Buffering`;
`cur` is `state.currentPlayback`.  While playing, only barge-in-level
frames are considered; two hits within the 250 ms coalescing window
stop playback, kill the transcoder, and let the triggering frame fall
through to `segmentStep`. -/
def handleChunk (cfg : Config) (now : Int) (c : Chunk) (playing : Bool)
    (cur : Option ℕ) (r : Recording) : HandleResult :=
  if playing then
    if cfg.bargeInEnabled ∧ hasVoiceEnergy c cfg.bargeInThreshold = true then
      let hits := if now - r.bargeLastAt < 250 then r.bargeHits + 1 else 1
      let r1 := { r with bargeHits := hits, bargeLastAt := now }
      if 2 ≤ hits then
        let r2 := { r1 with bargeHits := 0 }
        let kills := match cur with
          | some h => [Event.killTranscoder h]
          | none => []
        let seg := segmentStep cfg now c r2
        { record := seg.1
          playing := false
          currentPlayback := none
          events := [Event.bargeIn, Event.playerStop] ++ kills ++ seg.2 }
      else
        { record := r1, playing := true, currentPlayback := cur, events := [] }
    else
      { record := { r with preRoll := [], preRollBytes := 0 }
        playing := true
        currentPlayback := cur
        events := [] }
  else
    let seg := segmentStep cfg now c r
    { record := seg.1, playing := false, currentPlayback := cur, events := seg.2 }

/-- The silence-detector interval body (`setInterval(..., 200)` in
`startRecording`): on each tick of an Active recording, finalize on max
duration, else finalize on qualifying silence, else discard a stuck
utterance after ten silence windows. -/
def tick (cfg : Config) (now : Int) (r : Recording) : Recording × List Event :=
  if r.active = false then (r, [])
  else
    let silenceFor : Int := now - r.lastAudioAt
    let durationMs := bytesToMs r.bytes
    if cfg.maxUtteranceMs ≤ durationMs then
      (resetIdle r,
        [Event.recordingEnd Reason.maxUtterance durationMs,
         Event.finalizeUtterance r.chunks])
    else if (cfg.silenceMs : Int) ≤ silenceFor ∧ cfg.minUtteranceMs ≤ durationMs then
      (resetIdle r,
        [Event.recordingEnd Reason.silenceTimer durationMs,
         Event.finalizeUtterance r.chunks])
    else if (cfg.silenceMs : Int) * 10 ≤ silenceFor then
      (resetIdle r, [])
    else (r, [])

/-- Voice-session state: the per-guild `state` record of the source,
restricted to the fields the segmenter lifecycle reads and writes.
`recordings` holds the participant ids that currently own a segmenter
(the keys of the `state.recordings` map). -/
structure Session where
  recordings : List ℕ
  standby : Bool
  manualLeave : Bool
deriving DecidableEq

/-- The session as created by `connectToChannel` (before the initial
`refreshStandby`). -/
def initSession : Session :=
  { recordings := [], standby := false, manualLeave := false }

/-- Source `startRecording` entry guards and effect on the session:
return unchanged when the user is not allowlisted, when the session is
in standby, or when a recording already exists; otherwise register a
fresh recording.  The second component tells whether a recording was
created. -/
def startRecording (allowlist : List ℕ) (s : Session) (u : ℕ) :
    Session × Bool :=
  if u ∉ allowlist then (s, false)
  else if s.standby = true then (s, false)
  else if u ∈ s.recordings then (s, false)
  else ({ s with recordings := u :: s.recordings }, true)

/-- Source `cleanupRecording`: clear the user's timer and drop the
recording (no finalize is emitted). -/
def cleanupRecording (s : Session) (u : ℕ) : Session :=
  { s with recordings := s.recordings.erase u }

/-- A member of the voice channel: participant id and bot flag. -/
abbrev Member : Type := ℕ × Bool

/-- Source `refreshStandby`: recompute standby from the number of
non-bot allowlisted members present; entering standby destroys all
recordings (via `cleanupRecording`, hence no finalize), leaving standby
re-primes a recording for every allowlisted member. -/
def refreshStandby (allowlist : List ℕ) (members : List Member)
    (s : Session) : Session × List Event :=
  let allowCount :=
    (members.filter (fun m => !m.2 && decide (m.1 ∈ allowlist))).length
  let shouldStandby := allowCount = 0
  if decide shouldStandby = s.standby then (s, [])
  else if shouldStandby then
    ({ s with standby := true, recordings := [] }, [Event.standbyOn])
  else
    ((members.foldl
        (fun acc m =>
          if m.1 ∈ allowlist then (startRecording allowlist acc m.1).1 else acc)
        { s with standby := false }),
      [Event.standbyOff])

/-- Result of the source's `endAndFinalize` closure: whether
`finalizeRecording` was invoked, the session after `cleanupRecording`,
and the delay of the scheduled re-arm `setTimeout`. -/
structure EndFinalizeResult where
  finalized : Bool
  session : Session
  rearmDelayMs : ℕ
deriving DecidableEq

/-- Source `endAndFinalize` (stream-end path): finalize when the
buffered duration reached the minimum, clean up the recording, and
schedule the re-arm callback after a fixed 250 ms delay. -/
def endAndFinalize (cfg : Config) (s : Session) (u : ℕ) (recBytes : ℕ) :
    EndFinalizeResult :=
  { finalized := decide (cfg.minUtteranceMs ≤ bytesToMs recBytes)
    session := cleanupRecording s u
    rearmDelayMs := 250 }

/-- The body of the re-arm `setTimeout` inside `endAndFinalize`: bail
out unless the user is still a channel member, the session was not
manually left, and no recording exists; then run `startRecording`
(which additionally requires the allowlist and non-standby).  The
second component tells whether a recording was re-created. -/
def rearmFire (allowlist : List ℕ) (members : List Member) (s : Session)
    (u : ℕ) : Session × Bool :=
  if u ∉ members.map Prod.fst then (s, false)
  else if s.manualLeave = true then (s, false)
  else if u ∈ s.recordings then (s, false)
  else startRecording allowlist s u

/-- One session-level transition of the source: the operations that
create, destroy or re-create segmenters, refresh standby, or mark a
manual leave. -/
inductive SessionStep (allowlist : List ℕ) : Session → Session → Prop where
  | start (s : Session) (u : ℕ) :
      SessionStep allowlist s (startRecording allowlist s u).1
  | cleanup (s : Session) (u : ℕ) :
      SessionStep allowlist s (cleanupRecording s u)
  | refresh (s : Session) (members : List Member) :
      SessionStep allowlist s (refreshStandby allowlist members s).1
  | endFin (cfg : Config) (s : Session) (u : ℕ) (recBytes : ℕ) :
      SessionStep allowlist s (endAndFinalize cfg s u recBytes).session
  | rearm (s : Session) (members : List Member) (u : ℕ) :
      SessionStep allowlist s (rearmFire allowlist members s u).1
  | leave (s : Session) :
      SessionStep allowlist s { s with manualLeave := true }

/-- Session states reachable from a fresh `connectToChannel` session by
the source's operations. -/
inductive ReachableSession (allowlist : List ℕ) : Session → Prop where
  | init : ReachableSession allowlist initSession
  | step {s t : Session} : ReachableSession allowlist s →
      SessionStep allowlist s t → ReachableSession allowlist t

/-- Fixed-window rate-limit entry of the source (`rateLimits` map
values). -/
structure RateEntry where
  windowStart : Int
  sttCount : ℕ
  ttsCount : ℕ
deriving DecidableEq

/-- The two rate-limited operation kinds. -/
inductive RateKind where
  | stt
  | tts
deriving DecidableEq

/-- The counter of a kind inside an entry. -/
def kindCount (e : RateEntry) : RateKind → ℕ
  | RateKind.stt => e.sttCount
  | RateKind.tts => e.ttsCount

/-- The configured ceiling of a kind. -/
def kindMax (cfg : Config) : RateKind → ℕ
  | RateKind.stt => cfg.rateLimitSttMax
  | RateKind.tts => cfg.rateLimitTtsMax

/-- Increment the counter of a kind. -/
def bumpKind (e : RateEntry) : RateKind → RateEntry
  | RateKind.stt => { e with sttCount := e.sttCount + 1 }
  | RateKind.tts => { e with ttsCount := e.ttsCount + 1 }

/-- Source `isRateLimited` acting on one participant's stored entry
(`rateLimits.get(userId)`, `none` when absent): reset the window when
elapsed (zeroing both counters), then refuse without incrementing at
the ceiling, else increment and allow.  Returns the refusal flag and
the entry written back. -/
def isRateLimited (cfg : Config) (now : Int) (stored : Option RateEntry)
    (kind : RateKind) : Bool × RateEntry :=
  let e0 := stored.getD { windowStart := now, sttCount := 0, ttsCount := 0 }
  let e1 := if (cfg.rateLimitWindowMs : Int) ≤ now - e0.windowStart
    then { windowStart := now, sttCount := 0, ttsCount := 0 }
    else e0
  match kind with
  | RateKind.stt =>
      if cfg.rateLimitSttMax ≤ e1.sttCount then (true, e1)
      else (false, { e1 with sttCount := e1.sttCount + 1 })
  | RateKind.tts =>
      if cfg.rateLimitTtsMax ≤ e1.ttsCount then (true, e1)
      else (false, { e1 with ttsCount := e1.ttsCount + 1 })

/-- Run a sequence of same-kind requests (at the given times) through
`isRateLimited`, threading the stored entry; collects the refusal flag
of each request. -/
def runRequests (cfg : Config) (kind : RateKind) (e : RateEntry) :
    List Int → List Bool × RateEntry
  | [] => ([], e)
  | t :: ts =>
      let step := isRateLimited cfg t (some e) kind
      let rest := runRequests cfg kind step.2 ts
      (step.1 :: rest.1, rest.2)

/-- Configuration used by concrete C4 instances: a 1 ms pre-roll budget
(192 bytes) and a full-scale energy threshold, both legal values of the
env tunables. -/
def cfgPre : Config := { defaultConfig with preRollMs := 1, silenceThreshold := 1 }

/-- A 100-sample full-scale chunk (200 bytes, about 1.04 ms of audio). -/
def bigChunk : Chunk := List.replicate 100 (-32768)

/-- Configuration used by concrete C5 instances. -/
def cfgBarge : Config :=
  { defaultConfig with bargeInThreshold := 1, silenceThreshold := 1, preRollMs := 1 }

/-- Concrete recording for the C5 witness: one barge hit 100 ms ago. -/
def recBargeW : Recording := { initRecording with bargeHits := 1, bargeLastAt := 900 }

/-- Concrete Active recording holding 1000 ms of audio, last voiced at
time 0 (C1 witness). -/
def recSilW : Recording :=
  { initRecording with active := true, bytes := 192000, chunks := [[5]] }

/-- Concrete Active recording holding 15000 ms of audio (C2 witness). -/
def recMaxW : Recording :=
  { initRecording with active := true, bytes := 2880000, chunks := [[5]] }

/-- Concrete Active recording holding 100 ms of audio, below the default
600 ms minimum (C3 witness). -/
def recSubW : Recording :=
  { initRecording with active := true, bytes := 19200, chunks := [[5]] }

/-- Configuration with an STT ceiling of 2 (C8 witness). -/
def cfgRL : Config := { defaultConfig with rateLimitSttMax := 2 }

lemma sumSquares_eq (c : Chunk) :
    sumSquares c = (sumSqInt c : ℚ) / (32768 * 32768) := by
  induction c with
  | nil => simp [sumSquares, sumSqInt]
  | cons s t ih =>
      simp only [sumSquares, sumSqInt, List.map_cons, List.sum_cons] at *
      rw [ih]
      push_cast
      field_simp

lemma hasVoiceEnergy_eq_rmsSq (c : Chunk) (t : ℚ) :
    hasVoiceEnergy c t =
      match computeRmsSq c with
      | none => false
      | some m => decide (t ≤ 0 ∨ t ^ 2 ≤ m) := by
  rcases Nat.eq_zero_or_pos (List.length c) with h | h
  · simp [hasVoiceEnergy, computeRmsSq, h]
  · have hne : ¬ List.length c = 0 := by omega
    simp only [hasVoiceEnergy, computeRmsSq, if_neg hne]
    have hn : (0 : ℚ) < (List.length c : ℚ) := by exact_mod_cast h
    have hden : (0 : ℚ) < ((t.den : ℤ) : ℚ) := by exact_mod_cast t.den_pos
    have key : (t.num * t.num * ((List.length c : ℤ) * (32768 * 32768))
        ≤ (t.den : ℤ) * (t.den : ℤ) * sumSqInt c)
        ↔ (t ^ 2 ≤ sumSquares c / (List.length c : ℚ)) := by
      have h1 : sumSquares c / (List.length c : ℚ)
          = (sumSqInt c : ℚ) / ((32768 * 32768) * (List.length c : ℚ)) := by
        rw [sumSquares_eq, div_div]
      rw [h1, le_div_iff₀ (by positivity)]
      have h2 : t ^ 2 = ((t.num : ℚ)) ^ 2 / (((t.den : ℤ) : ℚ)) ^ 2 := by
        rw [← div_pow]
        push_cast
        rw [Rat.num_div_den]
      rw [h2, div_mul_eq_mul_div, div_le_iff₀ (by positivity)]
      rw [show ((t.num : ℚ)) ^ 2 * (32768 * 32768 * (List.length c : ℚ))
            = ((t.num * t.num * ((List.length c : ℤ) * (32768 * 32768)) : ℤ) : ℚ) by
          push_cast; ring,
        show ((sumSqInt c : ℚ)) * (((t.den : ℤ) : ℚ)) ^ 2
            = (((t.den : ℤ) * (t.den : ℤ) * sumSqInt c : ℤ) : ℚ) by
          push_cast; ring]
      exact ⟨fun hx => by exact_mod_cast hx, fun hx => by exact_mod_cast hx⟩
    rw [Bool.eq_iff_iff]
    simp only [Bool.or_eq_true, decide_eq_true_eq]
    exact or_congr Iff.rfl key

lemma sumSqInt_replicate_zero (n : ℕ) :
    sumSqInt (List.replicate n (0 : ℤ)) = 0 := by
  simp [sumSqInt, List.map_replicate]

lemma sumSqInt_fullScale (c : Chunk)
    (h : ∀ s ∈ c, s = -32768 ∨ s = 32768) :
    sumSqInt c = (List.length c : ℤ) * (32768 * 32768) := by
  induction c with
  | nil => simp [sumSqInt]
  | cons s t ih =>
      have hs := h s (by simp)
      have ht : ∀ x ∈ t, x = -32768 ∨ x = 32768 := fun x hx => h x (by simp [hx])
      simp only [sumSqInt, List.map_cons, List.sum_cons, List.length_cons] at *
      rcases hs with hs | hs <;> rw [hs, ih ht] <;> push_cast <;> ring

/-- C6: a frame of all-zero samples is classified not voiced for every
positive threshold; a nonempty frame whose samples all sit at the
full-scale amplitude 32768 (as a 16-bit value, `-32768`; its negation
is included for completeness) is classified voiced for every threshold
at most 1.  The proof goes through `hasVoiceEnergy_eq_rmsSq`, i.e.
through the mean of the squared samples normalized by 32768 that
`computeRms` computes and compares against the threshold. -/
theorem rms_extreme_frames (n : ℕ) (t : ℚ) (c : Chunk) :
    (0 < t → hasVoiceEnergy (List.replicate n 0) t = false) ∧
    (c ≠ [] → (∀ s ∈ c, s = -32768 ∨ s = 32768) → t ≤ 1 →
      hasVoiceEnergy c t = true) := by
  constructor
  · intro ht
    rcases Nat.eq_zero_or_pos n with hn | hn
    · subst hn
      simp [hasVoiceEnergy]
    · rw [hasVoiceEnergy_eq_rmsSq]
      have hn0 : ¬ (List.length (List.replicate n (0 : ℤ)) = 0) := by
        simp
        omega
      have hm : computeRmsSq (List.replicate n (0 : ℤ)) = some 0 := by
        simp only [computeRmsSq, if_neg hn0, sumSquares_eq, sumSqInt_replicate_zero]
        simp
      rw [hm]
      have hnot : ¬ (t ≤ 0 ∨ t ^ 2 ≤ 0) := by
        push_neg
        exact ⟨ht, pow_pos ht 2⟩
      exact decide_eq_false hnot
  · intro hne hfs ht1
    rw [hasVoiceEnergy_eq_rmsSq]
    have hl : ¬ (List.length c = 0) := by
      simpa [List.length_eq_zero] using hne
    have hm : computeRmsSq c = some 1 := by
      simp only [computeRmsSq, if_neg hl, sumSquares_eq, sumSqInt_fullScale c hfs]
      have hq : ((List.length c : ℤ) : ℚ) ≠ 0 := by
        exact_mod_cast hl
      push_cast
      push_cast at hq
      field_simp
      ring
    rw [hm]
    have hor : t ≤ 0 ∨ t ^ 2 ≤ 1 := by
      rcases le_or_lt t 0 with h | h
      · exact Or.inl h
      · exact Or.inr (pow_le_one₀ (le_of_lt h) ht1)
    exact decide_eq_true hor

/-- C6 witness: the theorem applied to a concrete 3-sample zero frame and
a concrete full-scale frame, both at threshold 1. -/
theorem rms_extreme_frames_witness :
    hasVoiceEnergy (List.replicate 3 0) 1 = false ∧
    hasVoiceEnergy [-32768] 1 = true :=
  ⟨(rms_extreme_frames 3 1 [-32768]).1 (by decide),
   (rms_extreme_frames 3 1 [-32768]).2 (by decide) (by decide) (by decide)⟩

/-- C7 (amended): an empty frame is classified not voiced for every
threshold and the classifier is total (never raises); this is because
the code evaluates the RMS of an empty frame as `NaN` (`sqrt (0/0)`,
`computeRmsSq = none`) and every comparison against `NaN` is false; the
RMS is not treated as zero. -/
theorem empty_frame_not_voiced (t : ℚ) :
    hasVoiceEnergy ([] : Chunk) t = false ∧
    computeRmsSq ([] : Chunk) = none := by
  constructor <;> simp [hasVoiceEnergy, computeRmsSq]

/-- C7 witness: the amended theorem at the concrete threshold 0. -/
theorem empty_frame_not_voiced_witness :
    hasVoiceEnergy ([] : Chunk) 0 = false :=
  (empty_frame_not_voiced 0).1

/-- C7 counterexample: at threshold 0 (a legal normalized threshold) the
source classifier returns not-voiced on the empty frame, while a
classifier that "treats the RMS of the empty set as zero" (the claim's
parenthetical, `hasVoiceEnergyRmsZeroOnEmpty`) would return voiced
since `0 >= 0`; the code's empty-frame RMS is `NaN`, not zero. -/
theorem empty_frame_rms_zero_counterexample :
    hasVoiceEnergy ([] : Chunk) 0 = false ∧
    hasVoiceEnergyRmsZeroOnEmpty ([] : Chunk) 0 = true := by
  decide

/-- C1: on a tick of an Active segmenter whose buffered duration is
below the maximum, with the silence threshold reached and the minimum
duration reached, exactly one finalize fires, tagged `silence_timer`
(the spec's "silence timeout"), emitting the accumulated buffer, and
the recording resets to Idle with `active = false`, `chunks = []`,
`bytes = 0`. -/
theorem tick_silence_finalize (cfg : Config) (now : Int) (r : Recording)
    (hact : r.active = true)
    (hlt : bytesToMs r.bytes < cfg.maxUtteranceMs)
    (hsil : (cfg.silenceMs : Int) ≤ now - r.lastAudioAt)
    (hmin : cfg.minUtteranceMs ≤ bytesToMs r.bytes) :
    tick cfg now r =
      (resetIdle r,
        [Event.recordingEnd Reason.silenceTimer (bytesToMs r.bytes),
         Event.finalizeUtterance r.chunks]) ∧
    (tick cfg now r).2.filter isFinalizeEvent
        = [Event.finalizeUtterance r.chunks] ∧
    (resetIdle r).active = false ∧ (resetIdle r).chunks = [] ∧
    (resetIdle r).bytes = 0 := by
  have h1 : ¬ (r.active = false) := by simp [hact]
  have h2 : ¬ (cfg.maxUtteranceMs ≤ bytesToMs r.bytes) := Nat.not_le.mpr hlt
  have heq : tick cfg now r =
      (resetIdle r,
        [Event.recordingEnd Reason.silenceTimer (bytesToMs r.bytes),
         Event.finalizeUtterance r.chunks]) := by
    unfold tick
    rw [if_neg h1, if_neg h2, if_pos ⟨hsil, hmin⟩]
  refine ⟨heq, ?_, rfl, rfl, rfl⟩
  rw [heq]
  simp [isFinalizeEvent]

/-- C1 witness: the theorem applied to `recSilW` (1000 ms of buffered
audio, last voiced at time 0) at tick time 800 under the default
configuration. -/
theorem tick_silence_finalize_witness :
    tick defaultConfig 800 recSilW =
      (resetIdle recSilW,
        [Event.recordingEnd Reason.silenceTimer (bytesToMs recSilW.bytes),
         Event.finalizeUtterance recSilW.chunks]) :=
  (tick_silence_finalize defaultConfig 800 recSilW (by decide) (by decide)
    (by decide) (by decide)).1

/-- C2: on a tick of an Active segmenter whose buffered duration has
reached the maximum, the utterance is finalized with tag
`max_utterance` (the spec's "max duration") and the recording resets to
Idle with an empty buffer.  The tick time and `lastAudioAt` are
unconstrained, so this holds independently of silence — in particular
when a voiced frame has just arrived (`now = lastAudioAt`) and also
when the silence condition simultaneously holds, showing the
max-duration check is evaluated first. -/
theorem tick_max_duration_finalize (cfg : Config) (now : Int)
    (r : Recording) (hact : r.active = true)
    (hmax : cfg.maxUtteranceMs ≤ bytesToMs r.bytes) :
    tick cfg now r =
      (resetIdle r,
        [Event.recordingEnd Reason.maxUtterance (bytesToMs r.bytes),
         Event.finalizeUtterance r.chunks]) ∧
    (tick cfg now r).2.filter isFinalizeEvent
        = [Event.finalizeUtterance r.chunks] ∧
    (resetIdle r).active = false ∧ (resetIdle r).chunks = [] ∧
    (resetIdle r).bytes = 0 := by
  have h1 : ¬ (r.active = false) := by simp [hact]
  have heq : tick cfg now r =
      (resetIdle r,
        [Event.recordingEnd Reason.maxUtterance (bytesToMs r.bytes),
         Event.finalizeUtterance r.chunks]) := by
    unfold tick
    rw [if_neg h1, if_pos hmax]
  refine ⟨heq, ?_, rfl, rfl, rfl⟩
  rw [heq]
  simp [isFinalizeEvent]

/-- C2 witness: the theorem applied to `recMaxW` (15000 ms of buffered
audio) at tick time 0 with `lastAudioAt = 0` — zero silence, a voiced
frame just arrived — under the default configuration. -/
theorem tick_max_duration_finalize_witness :
    tick defaultConfig 0 recMaxW =
      (resetIdle recMaxW,
        [Event.recordingEnd Reason.maxUtterance (bytesToMs recMaxW.bytes),
         Event.finalizeUtterance recMaxW.chunks]) :=
  (tick_max_duration_finalize defaultConfig 0 recMaxW (by decide) (by decide)).1

/-- C3: an Active segmenter whose buffered duration is below the minimum
(under the standing configuration constraint `min ≤ max`) produces no
finalize on any tick, whatever the silence; and once the silence
reaches ten times the silence threshold the tick discards the buffer
and returns to Idle emitting nothing. -/
theorem tick_sub_min_no_finalize (cfg : Config) (now : Int) (r : Recording)
    (hact : r.active = true)
    (hmm : cfg.minUtteranceMs ≤ cfg.maxUtteranceMs)
    (hsub : bytesToMs r.bytes < cfg.minUtteranceMs) :
    (tick cfg now r).2.filter isFinalizeEvent = [] ∧
    ((cfg.silenceMs : Int) * 10 ≤ now - r.lastAudioAt →
      tick cfg now r = (resetIdle r, [])) := by
  have h1 : ¬ (r.active = false) := by simp [hact]
  have h2 : ¬ (cfg.maxUtteranceMs ≤ bytesToMs r.bytes) := by omega
  have h3 : ¬ ((cfg.silenceMs : Int) ≤ now - r.lastAudioAt ∧
      cfg.minUtteranceMs ≤ bytesToMs r.bytes) := by
    rintro ⟨-, hc⟩
    omega
  constructor
  · by_cases h4 : (cfg.silenceMs : Int) * 10 ≤ now - r.lastAudioAt
    · have : tick cfg now r = (resetIdle r, []) := by
        unfold tick
        rw [if_neg h1, if_neg h2, if_neg h3, if_pos h4]
      rw [this]
      rfl
    · have : tick cfg now r = (r, []) := by
        unfold tick
        rw [if_neg h1, if_neg h2, if_neg h3, if_neg h4]
      rw [this]
      rfl
  · intro h4
    unfold tick
    rw [if_neg h1, if_neg h2, if_neg h3, if_pos h4]

/-- C3 witness: the theorem applied to `recSubW` (100 ms of buffered
audio, below the 600 ms minimum) at tick time 8000 with
`lastAudioAt = 0` (ten silence windows elapsed) under the default
configuration. -/
theorem tick_sub_min_no_finalize_witness :
    (tick defaultConfig 8000 recSubW).2.filter isFinalizeEvent = [] ∧
    tick defaultConfig 8000 recSubW = (resetIdle recSubW, []) :=
  ⟨(tick_sub_min_no_finalize defaultConfig 8000 recSubW (by decide) (by decide)
      (by decide)).1,
   (tick_sub_min_no_finalize defaultConfig 8000 recSubW (by decide) (by decide)
      (by decide)).2 (by decide)⟩

lemma trimPreRoll_suffix (m : ℕ) :
    ∀ (pr : List Chunk) (b : ℕ), (trimPreRoll m pr b).1 <:+ pr := by
  intro pr
  induction pr with
  | nil =>
      intro b
      simp [trimPreRoll]
  | cons c rest ih =>
      intro b
      rw [trimPreRoll]
      by_cases h : m < b ∧ rest ≠ []
      · rw [if_pos h]
        exact (ih _).trans (List.suffix_cons c rest)
      · rw [if_neg h]

lemma trimPreRoll_ne_nil (m : ℕ) :
    ∀ (pr : List Chunk) (b : ℕ), pr ≠ [] → (trimPreRoll m pr b).1 ≠ [] := by
  intro pr
  induction pr with
  | nil =>
      intro b hb
      exact absurd rfl hb
  | cons c rest ih =>
      intro b hb
      rw [trimPreRoll]
      by_cases h : m < b ∧ rest ≠ []
      · rw [if_pos h]
        exact ih _ h.2
      · rw [if_neg h]
        exact List.cons_ne_nil c rest

lemma trimPreRoll_stop (m : ℕ) :
    ∀ (pr : List Chunk) (b : ℕ),
      (trimPreRoll m pr b).2 ≤ m ∨ (trimPreRoll m pr b).1.length ≤ 1 := by
  intro pr
  induction pr with
  | nil =>
      intro b
      simp [trimPreRoll]
  | cons c rest ih =>
      intro b
      rw [trimPreRoll]
      by_cases h : m < b ∧ rest ≠ []
      · rw [if_pos h]
        exact ih _
      · rw [if_neg h]
        rcases not_and_or.mp h with h1 | h2
        · exact Or.inl (by omega)
        · right
          rw [not_not.mp h2]
          simp

lemma trimPreRoll_bytes (m : ℕ) :
    ∀ (pr : List Chunk) (b : ℕ), b = (pr.map byteLen).sum →
      (trimPreRoll m pr b).2 = (((trimPreRoll m pr b).1).map byteLen).sum := by
  intro pr
  induction pr with
  | nil =>
      intro b hb
      simpa [trimPreRoll] using hb
  | cons c rest ih =>
      intro b hb
      rw [trimPreRoll]
      by_cases h : m < b ∧ rest ≠ []
      · rw [if_pos h]
        apply ih
        simp only [List.map_cons, List.sum_cons] at hb
        omega
      · rw [if_neg h]
        simpa using hb

/-- C4 (amended): while Idle (playback inactive) every incoming frame is
pushed onto the pre-roll, whose oldest frames are then discarded while
the byte total exceeds the budget **and more than one frame remains**
(so a single frame larger than the whole budget is retained); on the
first voiced frame the segmenter becomes Active with
`startedAt`/`lastAudioAt` set to now and pre-roll cleared, and the
buffer holds the retained pre-roll frames in original order (a suffix
of the pushed frames) **followed by one extra copy of the triggering
frame** (the handler seeds `chunks` from the pre-roll, which already
contains the frame, and then falls through to the Active-path append);
whenever the retained pre-roll kept more than one frame its byte total
is within the budget. -/
theorem segmentation_start_amended (cfg : Config) (now : Int) (c : Chunk)
    (cur : Option ℕ) (r : Recording) (hidle : r.active = false)
    (hbytes : r.preRollBytes = (r.preRoll.map byteLen).sum) :
    (hasVoiceEnergy c cfg.silenceThreshold = false →
      handleChunk cfg now c false cur r =
        { record := { r with
            preRoll := (pushPreRoll cfg r c).1
            preRollBytes := (pushPreRoll cfg r c).2 }
          playing := false
          currentPlayback := cur
          events := [] }) ∧
    (hasVoiceEnergy c cfg.silenceThreshold = true →
      (handleChunk cfg now c false cur r).record =
        { startedAt := some now
          lastAudioAt := now
          active := true
          chunks := (pushPreRoll cfg r c).1 ++ [c]
          bytes := (pushPreRoll cfg r c).2 + byteLen c
          preRoll := []
          preRollBytes := 0
          bargeHits := r.bargeHits
          bargeLastAt := r.bargeLastAt } ∧
      (pushPreRoll cfg r c).1 <:+ (r.preRoll ++ [c]) ∧
      (pushPreRoll cfg r c).1 ≠ [] ∧
      ((((pushPreRoll cfg r c).1).map byteLen).sum ≤ maxPreRollBytes cfg ∨
        ((pushPreRoll cfg r c).1).length = 1)) := by
  have hb2 : (pushPreRoll cfg r c).2
      = (((pushPreRoll cfg r c).1).map byteLen).sum := by
    unfold pushPreRoll
    apply trimPreRoll_bytes
    simp [hbytes, byteLen]
  constructor
  · intro hv
    simp only [handleChunk, segmentStep, hidle]
    simp [hv]
  · intro hv
    refine ⟨?_, ?_, ?_, ?_⟩
    · simp only [handleChunk, segmentStep, hidle]
      simp [hv, bufferChunk]
    · exact trimPreRoll_suffix _ _ _
    · exact trimPreRoll_ne_nil _ _ _ (by simp)
    · rw [← hb2]
      unfold pushPreRoll
      have hne := trimPreRoll_ne_nil (maxPreRollBytes cfg) (r.preRoll ++ [c])
        (r.preRollBytes + byteLen c) (by simp)
      have hl0 : (trimPreRoll (maxPreRollBytes cfg) (r.preRoll ++ [c])
          (r.preRollBytes + byteLen c)).1.length ≠ 0 := by
        simpa [List.length_eq_zero] using hne
      rcases trimPreRoll_stop (maxPreRollBytes cfg) (r.preRoll ++ [c])
          (r.preRollBytes + byteLen c) with h | h
      · exact Or.inl h
      · exact Or.inr (by omega)

set_option maxRecDepth 4000 in
/-- C4 counterexample: under a legal configuration (1 ms pre-roll budget,
threshold 1) a single Idle-state voiced frame of 200 bytes yields a
buffer holding the triggering frame twice — not "exactly the retained
pre-roll frames" (which are `[bigChunk]`) — and the one retained frame
is larger than the whole pre-roll budget, so the seeded buffer covers
audio from before the budget window. -/
theorem segmentation_start_counterexample :
    initRecording.active = false ∧
    hasVoiceEnergy bigChunk cfgPre.silenceThreshold = true ∧
    (handleChunk cfgPre 1000 bigChunk false none initRecording).record.chunks
        = [bigChunk, bigChunk] ∧
    ¬ ((handleChunk cfgPre 1000 bigChunk false none initRecording).record.chunks
        = [bigChunk]) ∧
    maxPreRollBytes cfgPre < byteLen bigChunk := by
  decide

set_option maxRecDepth 4000 in
/-- C4 witness: the amended theorem applied to the concrete voiced frame
`bigChunk` arriving at time 1000 on a fresh Idle recording. -/
theorem segmentation_start_amended_witness :
    (handleChunk cfgPre 1000 bigChunk false none initRecording).record =
      { startedAt := some 1000
        lastAudioAt := 1000
        active := true
        chunks := (pushPreRoll cfgPre initRecording bigChunk).1 ++ [bigChunk]
        bytes := (pushPreRoll cfgPre initRecording bigChunk).2 + byteLen bigChunk
        preRoll := []
        preRollBytes := 0
        bargeHits := initRecording.bargeHits
        bargeLastAt := initRecording.bargeLastAt } :=
  ((segmentation_start_amended cfgPre 1000 bigChunk none initRecording
    (by decide) (by decide)).2 (by decide)).1

lemma segmentStep_barge_fields (cfg : Config) (now : Int) (c : Chunk)
    (r : Recording) :
    (segmentStep cfg now c r).1.bargeHits = r.bargeHits ∧
    (segmentStep cfg now c r).1.bargeLastAt = r.bargeLastAt := by
  by_cases ha : r.active = false <;>
    by_cases he : hasVoiceEnergy c cfg.silenceThreshold = false <;>
      simp [segmentStep, bufferChunk, ha, he]

lemma segmentStep_no_player_stop (cfg : Config) (now : Int) (c : Chunk)
    (r : Recording) :
    (segmentStep cfg now c r).2.filter isPlayerStopEvent = [] := by
  by_cases ha : r.active = false <;>
    by_cases he : hasVoiceEnergy c cfg.silenceThreshold = false <;>
      simp [segmentStep, bufferChunk, ha, he, isPlayerStopEvent]

/-- C5: while playback is active (with barge-in enabled), a frame below
the barge threshold is discarded without touching the segmenter buffer
or stopping playback (first conjunct; in particular synthesized speech
never starts an utterance); a barge-level frame within the 250 ms
coalescing window increments `bargeHits` (second conjunct), while a gap
of 250 ms or more resets the count to 1 (third conjunct), in both cases
without stopping playback; and when the incremented count reaches the
fixed count 2, playback stops exactly once, any in-flight transcoder is
killed, `bargeHits` is cleared, and the triggering frame falls through
into the ordinary Idle/Active segmentation path (`segmentStep`), last
conjunct. -/
theorem barge_in_debounce (cfg : Config) (now : Int) (c : Chunk)
    (cur : Option ℕ) (r : Recording) (hen : cfg.bargeInEnabled = true) :
    (hasVoiceEnergy c cfg.bargeInThreshold = false →
      handleChunk cfg now c true cur r =
        { record := { r with preRoll := [], preRollBytes := 0 }
          playing := true
          currentPlayback := cur
          events := [] }) ∧
    (hasVoiceEnergy c cfg.bargeInThreshold = true →
      now - r.bargeLastAt < 250 → r.bargeHits = 0 →
      handleChunk cfg now c true cur r =
        { record := { r with bargeHits := r.bargeHits + 1, bargeLastAt := now }
          playing := true
          currentPlayback := cur
          events := [] }) ∧
    (hasVoiceEnergy c cfg.bargeInThreshold = true →
      250 ≤ now - r.bargeLastAt →
      handleChunk cfg now c true cur r =
        { record := { r with bargeHits := 1, bargeLastAt := now }
          playing := true
          currentPlayback := cur
          events := [] }) ∧
    (hasVoiceEnergy c cfg.bargeInThreshold = true →
      now - r.bargeLastAt < 250 → 1 ≤ r.bargeHits →
      handleChunk cfg now c true cur r =
        { record := (segmentStep cfg now c
            { r with bargeHits := 0, bargeLastAt := now }).1
          playing := false
          currentPlayback := none
          events := [Event.bargeIn, Event.playerStop] ++
            (match cur with
              | some h => [Event.killTranscoder h]
              | none => []) ++
            (segmentStep cfg now c { r with bargeHits := 0, bargeLastAt := now }).2 } ∧
      (handleChunk cfg now c true cur r).events.filter isPlayerStopEvent
          = [Event.playerStop] ∧
      (handleChunk cfg now c true cur r).record.bargeHits = 0) := by
  refine ⟨?_, ?_, ?_, ?_⟩
  · intro hv
    simp [handleChunk, hen, hv]
  · intro hv hgap h0
    simp [handleChunk, hen, hv, hgap, h0]
  · intro hv hgap
    have hngap : ¬ (now - r.bargeLastAt < 250) := not_lt.mpr hgap
    simp [handleChunk, hen, hv, hngap]
  · intro hv hgap h1
    have h2 : 2 ≤ r.bargeHits + 1 := by omega
    have heq : handleChunk cfg now c true cur r =
        { record := (segmentStep cfg now c
            { r with bargeHits := 0, bargeLastAt := now }).1
          playing := false
          currentPlayback := none
          events := [Event.bargeIn, Event.playerStop] ++
            (match cur with
              | some h => [Event.killTranscoder h]
              | none => []) ++
            (segmentStep cfg now c { r with bargeHits := 0, bargeLastAt := now }).2 } := by
      simp [handleChunk, hen, hv, hgap, h2]
    refine ⟨heq, ?_, ?_⟩
    · rw [heq]
      simp only [List.filter_append]
      rw [segmentStep_no_player_stop]
      cases cur <;> simp [isPlayerStopEvent]
    · rw [heq]
      exact (segmentStep_barge_fields cfg now c
        { r with bargeHits := 0, bargeLastAt := now }).1

set_option maxRecDepth 4000 in
/-- C5 witness: the theorem's trigger conjunct applied to a concrete
barge-level frame at time 1000 on a recording with one prior hit
100 ms earlier and an in-flight transcoder handle 7. -/
theorem barge_in_debounce_witness :
    handleChunk cfgBarge 1000 bigChunk true (some 7) recBargeW =
      { record := (segmentStep cfgBarge 1000 bigChunk
          { recBargeW with bargeHits := 0, bargeLastAt := 1000 }).1
        playing := false
        currentPlayback := none
        events := [Event.bargeIn, Event.playerStop, Event.killTranscoder 7] ++
          (segmentStep cfgBarge 1000 bigChunk
            { recBargeW with bargeHits := 0, bargeLastAt := 1000 }).2 } :=
  ((barge_in_debounce cfgBarge 1000 bigChunk (some 7) recBargeW
    (by decide)).2.2.2 (by decide) (by decide) (by decide)).1

lemma bumpKind_windowStart (e : RateEntry) (k : RateKind) :
    (bumpKind e k).windowStart = e.windowStart := by
  cases k <;> rfl

lemma kindCount_bump (e : RateEntry) (k : RateKind) :
    kindCount (bumpKind e k) k = kindCount e k + 1 := by
  cases k <;> rfl

lemma isRateLimited_no_reset (cfg : Config) (now : Int) (e : RateEntry)
    (k : RateKind) (h : now - e.windowStart < (cfg.rateLimitWindowMs : Int)) :
    isRateLimited cfg now (some e) k =
      if kindMax cfg k ≤ kindCount e k then (true, e)
      else (false, bumpKind e k) := by
  have hn : ¬ ((cfg.rateLimitWindowMs : Int) ≤ now - e.windowStart) :=
    not_le.mpr h
  cases k <;> simp [isRateLimited, kindMax, kindCount, bumpKind, hn]

lemma isRateLimited_reset (cfg : Config) (now : Int) (e : RateEntry)
    (k : RateKind) (h : (cfg.rateLimitWindowMs : Int) ≤ now - e.windowStart) :
    isRateLimited cfg now (some e) k =
      if kindMax cfg k = 0 then
        (true, { windowStart := now, sttCount := 0, ttsCount := 0 })
      else
        (false, bumpKind { windowStart := now, sttCount := 0, ttsCount := 0 } k) := by
  cases k <;> simp [isRateLimited, kindMax, bumpKind, h, Nat.le_zero]

lemma runRequests_within (cfg : Config) (k : RateKind) (ts : List Int) :
    ∀ e : RateEntry,
      (∀ t ∈ ts, t - e.windowStart < (cfg.rateLimitWindowMs : Int)) →
      (runRequests cfg k e ts).1 =
        (List.range ts.length).map
          (fun i => decide (kindMax cfg k ≤ kindCount e k + i)) ∧
      (runRequests cfg k e ts).2.windowStart = e.windowStart := by
  induction ts with
  | nil =>
      intro e h
      simp [runRequests]
  | cons t ts ih =>
      intro e h
      have ht : t - e.windowStart < (cfg.rateLimitWindowMs : Int) :=
        h t (by simp)
      have hts : ∀ x ∈ ts, x - e.windowStart < (cfg.rateLimitWindowMs : Int) :=
        fun x hx => h x (by simp [hx])
      simp only [runRequests]
      rw [isRateLimited_no_reset cfg t e k ht]
      by_cases hc : kindMax cfg k ≤ kindCount e k
      · rw [if_pos hc]
        obtain ⟨ih1, ih2⟩ := ih e hts
        refine ⟨?_, ih2⟩
        simp only [List.length_cons]
        rw [ih1, List.range_succ_eq_map, List.map_cons, List.map_map]
        congr 1
        · exact (decide_eq_true
            (show kindMax cfg k ≤ kindCount e k + 0 by omega)).symm
        · apply List.map_congr_left
          intro i _
          simp only [Function.comp]
          rw [decide_eq_true (by omega : kindMax cfg k ≤ kindCount e k + i),
            decide_eq_true (by omega : kindMax cfg k ≤ kindCount e k + (i + 1))]
      · rw [if_neg hc]
        obtain ⟨ih1, ih2⟩ := ih (bumpKind e k)
          (by rw [bumpKind_windowStart]; exact hts)
        refine ⟨?_, by rw [ih2, bumpKind_windowStart]⟩
        simp only [List.length_cons]
        rw [ih1, kindCount_bump, List.range_succ_eq_map, List.map_cons,
          List.map_map]
        congr 1
        · exact (decide_eq_false
            (show ¬ kindMax cfg k ≤ kindCount e k + 0 by omega)).symm
        · apply List.map_congr_left
          intro i _
          simp only [Function.comp]
          rw [show kindCount e k + 1 + i = kindCount e k + (i + 1) by omega]

/-- C8: for a participant's stored entry and either kind, (1) once the
window has elapsed the entry is reset — `windowStart := now`, both
counters zeroed — before the request is decided, so a fresh request
succeeds whenever the ceiling is positive; (2) inside the window a
request at or above the ceiling is refused without incrementing;
(3) inside the window a request below the ceiling increments and is
allowed; (4) the counter never exceeds the ceiling; (5) a same-kind
request sequence inside one window starting from zeroed counters is
allowed exactly at the first `ceiling` positions and refused at every
later one — in particular exactly `ceiling` requests succeed and the
`ceiling + 1`-th is refused. -/
theorem rate_limit_window (cfg : Config) (k : RateKind) (e : RateEntry)
    (now : Int) (ts : List Int) (w : Int) :
    ((cfg.rateLimitWindowMs : Int) ≤ now - e.windowStart →
      isRateLimited cfg now (some e) k =
        if kindMax cfg k = 0 then
          (true, { windowStart := now, sttCount := 0, ttsCount := 0 })
        else
          (false, bumpKind { windowStart := now, sttCount := 0, ttsCount := 0 } k)) ∧
    (now - e.windowStart < (cfg.rateLimitWindowMs : Int) →
      kindMax cfg k ≤ kindCount e k →
      isRateLimited cfg now (some e) k = (true, e)) ∧
    (now - e.windowStart < (cfg.rateLimitWindowMs : Int) →
      kindCount e k < kindMax cfg k →
      isRateLimited cfg now (some e) k = (false, bumpKind e k)) ∧
    (kindCount e k ≤ kindMax cfg k →
      kindCount (isRateLimited cfg now (some e) k).2 k ≤ kindMax cfg k) ∧
    ((∀ t ∈ ts, t - w < (cfg.rateLimitWindowMs : Int)) →
      (runRequests cfg k { windowStart := w, sttCount := 0, ttsCount := 0 } ts).1 =
        (List.range ts.length).map (fun i => decide (kindMax cfg k ≤ i))) := by
  refine ⟨?_, ?_, ?_, ?_, ?_⟩
  · intro h
    exact isRateLimited_reset cfg now e k h
  · intro h hc
    rw [isRateLimited_no_reset cfg now e k h, if_pos hc]
  · intro h hc
    rw [isRateLimited_no_reset cfg now e k h, if_neg (by omega)]
  · intro hc
    by_cases h : (cfg.rateLimitWindowMs : Int) ≤ now - e.windowStart
    · rw [isRateLimited_reset cfg now e k h]
      by_cases h0 : kindMax cfg k = 0
      · rw [if_pos h0]
        cases k <;> simp [kindCount, h0]
      · rw [if_neg h0]
        rw [kindCount_bump]
        cases k <;> simp [kindCount] <;> omega
    · rw [isRateLimited_no_reset cfg now e k (by omega)]
      by_cases hcc : kindMax cfg k ≤ kindCount e k
      · rw [if_pos hcc]
        exact hc
      · rw [if_neg hcc]
        rw [kindCount_bump]
        omega
  · intro h
    have := (runRequests_within cfg k ts
      { windowStart := w, sttCount := 0, ttsCount := 0 } (by simpa using h)).1
    rw [this]
    apply List.map_congr_left
    intro i _
    have h0 : kindCount { windowStart := w, sttCount := 0, ttsCount := 0 } k = 0 := by
      cases k <;> rfl
    rw [h0]
    simp

/-- C8 witness: with an STT ceiling of 2, three requests at times 0, 1,
2 inside a fresh window give allowed, allowed, refused (conjunct 5),
a request at the ceiling is refused without incrementing (conjunct 2),
and a request after the window elapsed resets and succeeds
(conjunct 1). -/
theorem rate_limit_window_witness :
    (runRequests cfgRL RateKind.stt
        { windowStart := 0, sttCount := 0, ttsCount := 0 } [0, 1, 2]).1 =
      (List.range 3).map (fun i => decide (kindMax cfgRL RateKind.stt ≤ i)) ∧
    isRateLimited cfgRL 100
        (some { windowStart := 0, sttCount := 2, ttsCount := 0 }) RateKind.stt =
      (true, { windowStart := 0, sttCount := 2, ttsCount := 0 }) ∧
    isRateLimited cfgRL 60000
        (some { windowStart := 0, sttCount := 2, ttsCount := 0 }) RateKind.stt =
      if kindMax cfgRL RateKind.stt = 0 then
        (true, { windowStart := 60000, sttCount := 0, ttsCount := 0 })
      else
        (false, bumpKind { windowStart := 60000, sttCount := 0, ttsCount := 0 }
          RateKind.stt) :=
  ⟨(rate_limit_window cfgRL RateKind.stt
      { windowStart := 0, sttCount := 0, ttsCount := 0 } 0 [0, 1, 2] 0).2.2.2.2
      (by decide),
   (rate_limit_window cfgRL RateKind.stt
      { windowStart := 0, sttCount := 2, ttsCount := 0 } 100 [] 0).2.1
      (by decide) (by decide),
   (rate_limit_window cfgRL RateKind.stt
      { windowStart := 0, sttCount := 2, ttsCount := 0 } 60000 [] 0).1
      (by decide)⟩

lemma startRecording_spec (al : List ℕ) (s : Session) (u : ℕ) :
    ((startRecording al s u).2 = true ↔
      (u ∈ al ∧ s.standby = false ∧ u ∉ s.recordings)) ∧
    ((startRecording al s u).2 = true →
      (startRecording al s u).1 = { s with recordings := u :: s.recordings }) ∧
    ((startRecording al s u).2 = false → (startRecording al s u).1 = s) ∧
    (startRecording al s u).1.standby = s.standby ∧
    (startRecording al s u).1.manualLeave = s.manualLeave := by
  unfold startRecording
  split_ifs with h1 h2 h3 <;> simp_all

/-- C9 (amended): `endAndFinalize` always schedules the re-arm callback
after the fixed 250 ms delay, cleans up the recording, and finalizes
exactly when the buffered duration reached the minimum; the scheduled
re-creation then occurs if and only if the participant is still a
member of the destination channel, **the session has not been manually
left**, no recording already exists for the participant, **the
participant is allowlisted**, and the destination is not in standby.
The two emphasised conjuncts are checked by the code (the `manualLeave`
bail-out in the timeout body and the allowlist guard of
`startRecording`) but absent from the claim. -/
theorem rearm_policy_amended (cfg : Config) (al : List ℕ)
    (members : List Member) (s : Session) (u : ℕ) (recBytes : ℕ) :
    (endAndFinalize cfg s u recBytes).rearmDelayMs = 250 ∧
    (endAndFinalize cfg s u recBytes).session = cleanupRecording s u ∧
    ((endAndFinalize cfg s u recBytes).finalized = true ↔
      cfg.minUtteranceMs ≤ bytesToMs recBytes) ∧
    ((rearmFire al members s u).2 = true ↔
      (u ∈ members.map Prod.fst ∧ s.manualLeave = false ∧
        u ∉ s.recordings ∧ u ∈ al ∧ s.standby = false)) ∧
    ((rearmFire al members s u).2 = true →
      (rearmFire al members s u).1 = { s with recordings := u :: s.recordings }) := by
  refine ⟨rfl, rfl, by simp [endAndFinalize], ?_, ?_⟩
  · unfold rearmFire
    by_cases h1 : u ∉ members.map Prod.fst
    · rw [if_pos h1]
      exact iff_of_false (by simp) (fun hc => h1 hc.1)
    · rw [if_neg h1]
      by_cases h2 : s.manualLeave = true
      · rw [if_pos h2]
        exact iff_of_false (by simp) (fun hc => by simp [hc.2.1] at h2)
      · rw [if_neg h2]
        by_cases h3 : u ∈ s.recordings
        · rw [if_pos h3]
          exact iff_of_false (by simp) (fun hc => hc.2.2.1 h3)
        · rw [if_neg h3]
          rw [(startRecording_spec al s u).1]
          have h1m : u ∈ members.map Prod.fst := not_not.mp h1
          have h2m : s.manualLeave = false := by simpa using h2
          tauto
  · intro h
    unfold rearmFire at h ⊢
    by_cases h1 : u ∉ members.map Prod.fst
    · rw [if_pos h1] at h
      exact absurd h (by simp)
    · rw [if_neg h1] at h ⊢
      by_cases h2 : s.manualLeave = true
      · rw [if_pos h2] at h
        exact absurd h (by simp)
      · rw [if_neg h2] at h ⊢
        by_cases h3 : u ∈ s.recordings
        · rw [if_pos h3] at h
          exact absurd h (by simp)
        · rw [if_neg h3] at h ⊢
          exact (startRecording_spec al s u).2.1 h

/-- C9 witness: the amended theorem applied to a concrete session where
every amended condition holds — user 1 allowlisted and present, no
manual leave, not standby, no existing recording — so the re-arm fires
and a 1000 ms buffer finalizes. -/
theorem rearm_policy_amended_witness :
    (rearmFire [1] [(1, false)] initSession 1).2 = true ∧
    (endAndFinalize defaultConfig initSession 1 192000).rearmDelayMs = 250 ∧
    (endAndFinalize defaultConfig initSession 1 192000).finalized = true :=
  ⟨(rearm_policy_amended defaultConfig [1] [(1, false)] initSession 1
      192000).2.2.2.1.mpr (by decide),
   (rearm_policy_amended defaultConfig [1] [(1, false)] initSession 1
      192000).1,
   (rearm_policy_amended defaultConfig [1] [(1, false)] initSession 1
      192000).2.2.1.mpr (by decide)⟩

/-- C9 counterexample: user 1 is allowlisted, still present at the
destination, the session is not in standby and holds no recording for
them — all three conditions of the claim's "if and only if" — yet
because the session was manually left (`manualLeave = true`, the
`!leave` path) the re-arm callback creates nothing.  The claim's
biconditional is therefore false on the code. -/
theorem rearm_policy_counterexample :
    (1 ∈ ([(1, false)] : List Member).map Prod.fst ∧
      ({ recordings := [], standby := false, manualLeave := true } : Session).standby
        = false ∧
      1 ∉ ({ recordings := [], standby := false, manualLeave := true } : Session).recordings ∧
      1 ∈ ([1] : List ℕ)) ∧
    (rearmFire [1] [(1, false)]
      { recordings := [], standby := false, manualLeave := true } 1).2 = false := by
  decide

lemma startRecording_standby_noop (al : List ℕ) (s : Session) (u : ℕ)
    (hsb : s.standby = true) : (startRecording al s u).1 = s := by
  unfold startRecording
  by_cases h1 : u ∉ al
  · rw [if_pos h1]
  · rw [if_neg h1, if_pos hsb]

lemma foldl_prime_standby (al : List ℕ) (l : List Member) :
    ∀ s : Session,
      (l.foldl
        (fun acc m => if m.1 ∈ al then (startRecording al acc m.1).1 else acc)
        s).standby = s.standby := by
  induction l with
  | nil =>
      intro s
      rfl
  | cons m l ih =>
      intro s
      simp only [List.foldl_cons]
      rw [ih]
      by_cases h : m.1 ∈ al
      · rw [if_pos h]
        exact (startRecording_spec al s m.1).2.2.2.1
      · rw [if_neg h]

lemma sessionStep_preserves_inv (al : List ℕ) {s t : Session}
    (hst : SessionStep al s t)
    (hs : s.standby = true → s.recordings = []) :
    t.standby = true → t.recordings = [] := by
  cases hst with
  | start s u =>
      by_cases hsb : s.standby = true
      · rw [startRecording_standby_noop al s u hsb]
        exact hs
      · intro ht
        rw [(startRecording_spec al s u).2.2.2.1] at ht
        exact absurd ht hsb
  | cleanup s u =>
      intro ht
      have ht2 : s.standby = true := ht
      show s.recordings.erase u = []
      rw [hs ht2]
      rfl
  | refresh s members =>
      unfold refreshStandby
      by_cases h1 : decide
          ((members.filter (fun m => !m.2 && decide (m.1 ∈ al))).length = 0)
          = s.standby
      · rw [if_pos h1]
        exact hs
      · rw [if_neg h1]
        by_cases h2 : (members.filter (fun m => !m.2 && decide (m.1 ∈ al))).length = 0
        · rw [if_pos h2]
          intro _
          rfl
        · rw [if_neg h2]
          intro ht
          rw [foldl_prime_standby] at ht
          exact absurd ht (by simp)
  | endFin cfg s u recBytes =>
      intro ht
      have ht2 : s.standby = true := ht
      show s.recordings.erase u = []
      rw [hs ht2]
      rfl
  | rearm s members u =>
      unfold rearmFire
      by_cases h1 : u ∉ members.map Prod.fst
      · rw [if_pos h1]
        exact hs
      · rw [if_neg h1]
        by_cases h2 : s.manualLeave = true
        · rw [if_pos h2]
          exact hs
        · rw [if_neg h2]
          by_cases h3 : u ∈ s.recordings
          · rw [if_pos h3]
            exact hs
          · rw [if_neg h3]
            by_cases hsb : s.standby = true
            · rw [startRecording_standby_noop al s u hsb]
              exact hs
            · intro ht
              rw [(startRecording_spec al s u).2.2.2.1] at ht
              exact absurd ht hsb
  | leave s =>
      exact hs

/-- C10: in every session state reachable by the source's operations,
standby implies an empty recordings map (first conjunct); the standby
Off to On transition (no allowlisted non-bot member left) destroys all
recordings and emits only `standby_on` — in particular no finalize
(second conjunct); and `startRecording` is a no-op refusing creation
while standby is on, when the participant is not allowlisted, or when a
recording already exists (remaining conjuncts). -/
theorem standby_no_recordings_invariant (al : List ℕ) :
    (∀ s : Session, ReachableSession al s → s.standby = true →
      s.recordings = []) ∧
    (∀ (s : Session) (members : List Member), s.standby = false →
      (members.filter (fun m => !m.2 && decide (m.1 ∈ al))).length = 0 →
      refreshStandby al members s =
        ({ s with standby := true, recordings := [] }, [Event.standbyOn]) ∧
      (refreshStandby al members s).2.filter isFinalizeEvent = []) ∧
    (∀ (s : Session) (u : ℕ), s.standby = true →
      startRecording al s u = (s, false)) ∧
    (∀ (s : Session) (u : ℕ), u ∉ al → startRecording al s u = (s, false)) ∧
    (∀ (s : Session) (u : ℕ), u ∈ s.recordings →
      startRecording al s u = (s, false)) := by
  refine ⟨?_, ?_, ?_, ?_, ?_⟩
  · intro s h
    induction h with
    | init =>
        intro _
        rfl
    | step hpre hstep ih =>
        exact sessionStep_preserves_inv al hstep ih
  · intro s members hsb hcount
    have heq : refreshStandby al members s =
        ({ s with standby := true, recordings := [] }, [Event.standbyOn]) := by
      unfold refreshStandby
      rw [if_neg (by simp [hcount, hsb]), if_pos hcount]
    refine ⟨heq, ?_⟩
    rw [heq]
    rfl
  · intro s u hsb
    unfold startRecording
    by_cases h1 : u ∉ al
    · rw [if_pos h1]
    · rw [if_neg h1, if_pos hsb]
  · intro s u h1
    unfold startRecording
    rw [if_pos h1]
  · intro s u h3
    unfold startRecording
    by_cases h1 : u ∉ al
    · rw [if_pos h1]
    · rw [if_neg h1]
      by_cases h2 : s.standby = true
      · rw [if_pos h2]
      · rw [if_neg h2, if_pos h3]

/-- C10 witness: the invariant applied to the concrete standby session
reached from a fresh session by a `refreshStandby` with nobody present,
and the `startRecording` no-op applied to the same standby session. -/
theorem standby_no_recordings_invariant_witness :
    ({ recordings := [], standby := true, manualLeave := false } : Session).recordings
        = ([] : List ℕ) ∧
    startRecording [1] { recordings := [], standby := true, manualLeave := false } 1 =
      ({ recordings := [], standby := true, manualLeave := false }, false) :=
  ⟨(standby_no_recordings_invariant [1]).1
      { recordings := [], standby := true, manualLeave := false }
      (ReachableSession.step ReachableSession.init
        (SessionStep.refresh initSession []))
      rfl,
   (standby_no_recordings_invariant [1]).2.2.1
      { recordings := [], standby := true, manualLeave := false } 1 rfl⟩
